import Mathlib

/-!
Shallow embedding of the `css-in-rs` style-registration engine
(`src/lib.rs`, `src/style_provider.rs`).

Modelling conventions:
* A generator `fn(&T, &mut String, &mut u64)` becomes a pure function from
  the theme, the current buffer and the current counter to the new buffer
  and counter.  Function-pointer identity (the `BTreeMap` key) is modelled
  by a `Nat` key into a fixed environment `GenEnv`, so equal identities
  denote equal functions, exactly as for Rust `fn` pointers.
* A Rust panic (`assert_eq!`, `unwrap`, `panic!`, out-of-bounds `Vec`
  indexing) is modelled by `Option`: `none` means the operation aborted.
* The mount target is modelled by the text content of the mounted
  `<style>` element (`Inner.styles`); `set_text_content` replaces it.
* The `u64` counter is modelled by `Nat`: the registry itself only copies
  and compares counter values, never performs arithmetic on them.
-/

namespace CssInRs

/-- The `Theme` trait of `lib.rs`: a theme type together with its
`fast_cmp` method. -/
structure ThemeOps (T : Type) where
  fast_cmp : T → T → Bool

/-- `EmptyTheme` (`lib.rs`): `fast_cmp` always reports `true`. -/
def EmptyThemeOps : ThemeOps Unit :=
  ⟨fun _ _ => true⟩

/-- An updater function `fn(&T, &mut String, &mut u64)`: from theme,
buffer and counter to new buffer and counter. -/
def UpdaterFn (T : Type) : Type :=
  T → String → Nat → String × Nat

/-- Environment of generator identities: the `BTreeMap<UpdaterFn<T>, usize>`
keys on function-pointer identity, so each identity (a `Nat`) determines one
behaviour. -/
def GenEnv (T : Type) : Type :=
  Nat → UpdaterFn T

/-- `struct Updater<T>` (`style_provider.rs`): a generator identity with its
recorded counter range. -/
structure Updater where
  updater : Nat
  start : Nat
  stop : Nat
deriving DecidableEq

/-- A DOM element as far as this crate observes it: its tag name and its
text content. -/
structure Elem where
  tag : String
  text : String
deriving DecidableEq

/-- The root node handed to `Inner::new_and_mount_in_root`: a `Document`
(whose `head()` may be absent) or any other node, such as a shadow root. -/
inductive Root where
  | document (head : Option (List Elem))
  | shadow

/-- `struct Inner<T>` (`style_provider.rs`).  `styles` is the text content
of the mounted `<style>` element; `updater_to_idx` is the `BTreeMap` from
generator identity to index into `updaters`, modelled as an association
list. -/
structure Inner (T : Type) where
  styles : String
  current_theme : T
  current_style : String
  updaters : List Updater
  updater_to_idx : List (Nat × Nat)
  counter : Nat

/-- `Inner::new_and_mount_in_root`: `none` models a panic (the
`head().unwrap()` on a head-less document, or the shadow-root `panic!`).
On success it returns the fresh state together with the head's children
after `append_child(&styles)` (a newly created, empty `<style>` element). -/
def Inner.new_and_mount_in_root {T : Type} (root : Root) (theme : T) :
    Option (Inner T × List Elem) :=
  match root with
  | .document (some children) =>
      some ({ styles := "", current_theme := theme, current_style := "",
              updaters := [], updater_to_idx := [], counter := 0 },
            children ++ [⟨"style", ""⟩])
  | .document none => none
  | .shadow => none

/-- `Inner::add_updater` (`style_provider.rs`): dedup by generator identity;
on a vacant entry snapshot `start`, run the generator on the shared buffer
and counter, record `{updater, start, stop}`, index it, flush the buffer to
the style element, and return `start`.  The occupied branch indexes
`self.updaters[idx]`, which panics (`none`) when out of bounds. -/
def Inner.add_updater {T : Type} (gens : GenEnv T) (s : Inner T) (g : Nat) :
    Option (Inner T × Nat) :=
  match s.updater_to_idx.lookup g with
  | some idx =>
      match s.updaters[idx]? with
      | some u => some (s, u.start)
      | none => none
  | none =>
      let start := s.counter
      let res := gens g s.current_theme s.current_style s.counter
      let u : Updater := ⟨g, start, res.2⟩
      some ({ s with
              updater_to_idx := (g, s.updaters.length) :: s.updater_to_idx,
              current_style := res.1,
              counter := res.2,
              updaters := s.updaters ++ [u],
              styles := res.1 },
            start)

/-- `Updater::update` (`style_provider.rs`): replay the generator from the
recorded `start`; `assert_eq!(counter, self.stop)` panics (`none`) on a
mismatch. -/
def Updater.update {T : Type} (gens : GenEnv T) (theme : T) (css : String)
    (u : Updater) : Option String :=
  let res := gens u.updater theme css u.start
  if res.2 = u.stop then some res.1 else none

/-- The rebuild loop of `Inner::update`: thread the cleared buffer through
every registered updater in order; `none` propagates a panic. -/
def foldUpdaters {T : Type} (gens : GenEnv T) (theme : T) :
    List Updater → String → Option String
  | [], css => some css
  | u :: rest, css =>
      match u.update gens theme css with
      | some css₁ => foldUpdaters gens theme rest css₁
      | none => none

/-- `Inner::update`: clear the buffer, re-run every updater in registration
order, then write the result to the style element. -/
def Inner.update {T : Type} (gens : GenEnv T) (s : Inner T) :
    Option (Inner T) :=
  match foldUpdaters gens s.current_theme s.updaters "" with
  | some css => some { s with current_style := css, styles := css }
  | none => none

/-- `Inner::update_theme`: rebuild only when `fast_cmp` reports a change
(`fast_cmp` returning `true` means "unchanged"). -/
def Inner.update_theme {T : Type} (ops : ThemeOps T) (gens : GenEnv T)
    (s : Inner T) (theme : T) : Option (Inner T) :=
  if !(ops.fast_cmp s.current_theme theme) then
    Inner.update gens { s with current_theme := theme }
  else
    some s

/-- The `Classes` trait (`lib.rs`): the identity of `C::generate` and the
pure constructor `C::new : start → C`. -/
structure ClassesOps (T : Type) (C : Type) where
  genKey : Nat
  new : Nat → C

/-- `StyleProvider::add_classes`: register the bundle's generator and build
the bundle from the returned `start`. -/
def StyleProvider.add_classes {T C : Type} (gens : GenEnv T)
    (co : ClassesOps T C) (s : Inner T) : Option (Inner T × C) :=
  match Inner.add_updater gens s co.genKey with
  | some (s₁, start) => some (s₁, co.new start)
  | none => none

/-- Modelled from the spec: the `make_styles!`-generated bundle code is not
under `src/`; per §6, a bundle field's identifier string is
`"css-" + (start + offset)`. -/
def cssName (n : Nat) : String :=
  "css-" ++ toString n

/-- States of one provider reachable through the public surface:
construction, registrations, and theme updates that did not panic. -/
inductive Reachable {T : Type} (ops : ThemeOps T) (gens : GenEnv T) :
    Inner T → Prop where
  | init (root : Root) (theme : T) (s : Inner T) (hd : List Elem)
      (h : Inner.new_and_mount_in_root root theme = some (s, hd)) :
      Reachable ops gens s
  | reg (s s₁ : Inner T) (g r : Nat) (hs : Reachable ops gens s)
      (h : Inner.add_updater gens s g = some (s₁, r)) :
      Reachable ops gens s₁
  | theme (s s₁ : Inner T) (t : T) (hs : Reachable ops gens s)
      (h : Inner.update_theme ops gens s t = some s₁) :
      Reachable ops gens s₁

/-- Generators only append: the text written and the final counter do not
depend on the buffer contents already present (the contract of §3 of the
crate's documentation: generators append their output). -/
def AppendsOnly {T : Type} (gens : GenEnv T) : Prop :=
  ∀ g t css c, gens g t css c = (css ++ (gens g t "" c).1, (gens g t "" c).2)

/-- Generators never decrease the counter handed to them. -/
def MonotoneCounter {T : Type} (gens : GenEnv T) : Prop :=
  ∀ g t css c, c ≤ (gens g t css c).2

/-- The from-scratch output of each updater against `theme`, each replayed
from its own recorded `start`, concatenated in registration order. -/
def contributions {T : Type} (gens : GenEnv T) (theme : T) :
    List Updater → String
  | [] => ""
  | u :: rest => (gens u.updater theme "" u.start).1 ++ contributions gens theme rest

/-- The records form a contiguous chain starting at the given counter
value: each record starts where its predecessor stopped. -/
def chainOk : Nat → List Updater → Prop
  | _, [] => True
  | c, u :: rest => u.start = c ∧ chainOk u.stop rest

instance chainOk.instDecidable : (c : Nat) → (l : List Updater) → Decidable (chainOk c l)
  | _, [] => .isTrue trivial
  | _c, u :: rest =>
      have : Decidable (chainOk u.stop rest) := chainOk.instDecidable u.stop rest
      inferInstanceAs (Decidable (_ ∧ _))

/-- The counter value after a chain of records: the last record's `stop`,
or the given base value when there are no records. -/
def endCounter : Nat → List Updater → Nat
  | c, [] => c
  | _, u :: rest => endCounter u.stop rest

/-! ### Inversion lemmas for the operations -/

theorem add_updater_eq_cases {T : Type} (gens : GenEnv T) (s s₁ : Inner T)
    (g r : Nat) (h : Inner.add_updater gens s g = some (s₁, r)) :
    (s₁ = s ∧ ∃ idx u, s.updater_to_idx.lookup g = some idx ∧
        s.updaters[idx]? = some u ∧ r = u.start) ∨
    (s.updater_to_idx.lookup g = none ∧ r = s.counter ∧
      s₁ = { s with
             updater_to_idx := (g, s.updaters.length) :: s.updater_to_idx,
             current_style := (gens g s.current_theme s.current_style s.counter).1,
             counter := (gens g s.current_theme s.current_style s.counter).2,
             updaters := s.updaters ++
               [⟨g, s.counter, (gens g s.current_theme s.current_style s.counter).2⟩],
             styles := (gens g s.current_theme s.current_style s.counter).1 }) := by
  unfold Inner.add_updater at h
  split at h
  · rename_i idx hl
    split at h
    · rename_i u hu
      left
      injection h with h
      injection h with h₁ h₂
      exact ⟨h₁.symm, idx, u, hl, hu, h₂.symm⟩
    · exact absurd h (by simp)
  · rename_i hl
    right
    injection h with h
    injection h with h₁ h₂
    exact ⟨hl, h₂.symm, h₁.symm⟩

theorem update_theme_eq_cases {T : Type} (ops : ThemeOps T) (gens : GenEnv T)
    (s s₁ : Inner T) (t : T) (h : Inner.update_theme ops gens s t = some s₁) :
    (ops.fast_cmp s.current_theme t = true ∧ s₁ = s) ∨
    (ops.fast_cmp s.current_theme t = false ∧ ∃ css,
        foldUpdaters gens t s.updaters "" = some css ∧
        s₁ = { s with current_theme := t, current_style := css, styles := css }) := by
  unfold Inner.update_theme at h
  cases hc : ops.fast_cmp s.current_theme t with
  | true =>
      rw [hc] at h
      simp only [Bool.not_true, Bool.false_eq_true, if_neg, ite_false] at h
      left
      exact ⟨rfl, (Option.some.inj h).symm⟩
  | false =>
      rw [hc] at h
      simp only [Bool.not_false, if_pos, ite_true] at h
      unfold Inner.update at h
      right
      refine ⟨rfl, ?_⟩
      cases hf : foldUpdaters gens t s.updaters "" with
      | some css =>
          rw [hf] at h
          exact ⟨css, rfl, (Option.some.inj h).symm⟩
      | none => rw [hf] at h; exact absurd h (by simp)

theorem new_and_mount_eq_cases {T : Type} (root : Root) (t : T)
    (s : Inner T) (hd : List Elem)
    (h : Inner.new_and_mount_in_root root t = some (s, hd)) :
    ∃ children, root = Root.document (some children) ∧
      s = { styles := "", current_theme := t, current_style := "",
            updaters := [], updater_to_idx := [], counter := 0 } ∧
      hd = children ++ [⟨"style", ""⟩] := by
  cases root with
  | document oh =>
      cases oh with
      | some children =>
          refine ⟨children, rfl, ?_, ?_⟩ <;>
            · unfold Inner.new_and_mount_in_root at h
              injection h with h
              injection h with h₁ h₂
              simp [h₁.symm, h₂.symm]
      | none => exact absurd h (by simp [Inner.new_and_mount_in_root])
  | shadow => exact absurd h (by simp [Inner.new_and_mount_in_root])

/-! ### Chain and concatenation lemmas -/

theorem endCounter_snoc (l : List Updater) (u : Updater) :
    ∀ b, endCounter b (l ++ [u]) = u.stop := by
  induction l with
  | nil => intro b; rfl
  | cons v rest ih => intro b; simpa [endCounter] using ih v.stop

theorem chainOk_snoc (l : List Updater) (g stp : Nat) :
    ∀ b, chainOk b l → chainOk b (l ++ [⟨g, endCounter b l, stp⟩]) := by
  induction l with
  | nil => intro b _; exact ⟨rfl, trivial⟩
  | cons v rest ih =>
      intro b hc
      exact ⟨hc.1, ih v.stop hc.2⟩

theorem endCounter_getLast (l : List Updater) :
    ∀ b, endCounter b l = (l.getLast?.map Updater.stop).getD b := by
  induction l with
  | nil => intro b; rfl
  | cons u rest ih =>
      intro b
      cases rest with
      | nil => rfl
      | cons v rest₁ =>
          rw [show endCounter b (u :: v :: rest₁) = endCounter u.stop (v :: rest₁) from rfl,
              ih u.stop, List.getLast?_cons_cons]
          have hne : (v :: rest₁).getLast?.isSome := by
            rw [List.getLast?_isSome]
            simp
          obtain ⟨w, hw⟩ := Option.isSome_iff_exists.mp hne
          simp [hw]

theorem chainOk_consecutive (l : List Updater) :
    ∀ b, chainOk b l → ∀ i (h : i + 1 < l.length),
      (l.get ⟨i, Nat.lt_of_succ_lt h⟩).stop = (l.get ⟨i + 1, h⟩).start := by
  induction l with
  | nil => intro b _ i h; exact absurd h (by simp)
  | cons u rest ih =>
      intro b hc i h
      cases i with
      | zero =>
          cases rest with
          | nil => exact absurd h (by simp)
          | cons v rest₁ => exact hc.2.1.symm
      | succ i₁ =>
          exact ih u.stop hc.2 i₁ (Nat.lt_of_succ_lt_succ h)

theorem chainOk_base_le (l : List Updater) :
    ∀ b, chainOk b l → (∀ u ∈ l, u.start ≤ u.stop) →
      ∀ i (h : i < l.length), b ≤ (l.get ⟨i, h⟩).start := by
  induction l with
  | nil => intro b _ _ i h; exact absurd h (by simp)
  | cons u rest ih =>
      intro b hc hm i h
      cases i with
      | zero => exact Nat.le_of_eq hc.1.symm
      | succ i₁ =>
          have h₁ : u.stop ≤ (rest.get ⟨i₁, Nat.lt_of_succ_lt_succ h⟩).start :=
            ih u.stop hc.2 (fun v hv => hm v (List.mem_cons_of_mem u hv)) i₁ _
          have h₂ : b ≤ u.stop := hc.1 ▸ hm u (List.mem_cons_self u rest)
          exact Nat.le_trans h₂ h₁

theorem chainOk_ordered (l : List Updater) :
    ∀ b, chainOk b l → (∀ u ∈ l, u.start ≤ u.stop) →
      ∀ i j (hi : i < l.length) (hj : j < l.length), i < j →
        (l.get ⟨i, hi⟩).stop ≤ (l.get ⟨j, hj⟩).start := by
  induction l with
  | nil => intro b _ _ i j hi hj _; exact absurd hi (by simp)
  | cons u rest ih =>
      intro b hc hm i j hi hj hij
      cases i with
      | zero =>
          cases j with
          | zero => exact absurd hij (by omega)
          | succ j₁ =>
              exact chainOk_base_le rest u.stop hc.2
                (fun v hv => hm v (List.mem_cons_of_mem u hv)) j₁
                (Nat.lt_of_succ_lt_succ hj)
      | succ i₁ =>
          cases j with
          | zero => exact absurd hij (by omega)
          | succ j₁ =>
              exact ih u.stop hc.2 (fun v hv => hm v (List.mem_cons_of_mem u hv))
                i₁ j₁ _ _ (Nat.lt_of_succ_lt_succ hij)

theorem contributions_snoc {T : Type} (gens : GenEnv T) (t : T)
    (l : List Updater) (u : Updater) :
    contributions gens t (l ++ [u]) =
      contributions gens t l ++ (gens u.updater t "" u.start).1 := by
  induction l with
  | nil =>
      show (gens u.updater t "" u.start).1 ++ "" = "" ++ (gens u.updater t "" u.start).1
      rw [String.append_empty, String.empty_append]
  | cons v rest ih =>
      show (gens v.updater t "" v.start).1 ++ contributions gens t (rest ++ [u]) = _
      rw [ih, ← String.append_assoc]
      rfl

theorem updater_update_eq {T : Type} (gens : GenEnv T) (t : T) (css : String)
    (u : Updater) :
    Updater.update gens t css u =
      if (gens u.updater t css u.start).2 = u.stop
      then some (gens u.updater t css u.start).1 else none := rfl

theorem foldUpdaters_cons_some {T : Type} (gens : GenEnv T) (t : T)
    (u : Updater) (rest : List Updater) (css css₁ : String)
    (h : Updater.update gens t css u = some css₁) :
    foldUpdaters gens t (u :: rest) css = foldUpdaters gens t rest css₁ := by
  show (match Updater.update gens t css u with
        | some css₂ => foldUpdaters gens t rest css₂
        | none => none) = foldUpdaters gens t rest css₁
  rw [h]

theorem foldUpdaters_cons_none {T : Type} (gens : GenEnv T) (t : T)
    (u : Updater) (rest : List Updater) (css : String)
    (h : Updater.update gens t css u = none) :
    foldUpdaters gens t (u :: rest) css = none := by
  show (match Updater.update gens t css u with
        | some css₂ => foldUpdaters gens t rest css₂
        | none => none) = none
  rw [h]

theorem foldUpdaters_some_eq {T : Type} (gens : GenEnv T) (t : T)
    (hA : AppendsOnly gens) :
    ∀ (l : List Updater) (css r : String),
      foldUpdaters gens t l css = some r → r = css ++ contributions gens t l := by
  intro l
  induction l with
  | nil =>
      intro css r h
      rw [show contributions gens t [] = "" from rfl, String.append_empty]
      exact (Option.some.inj h).symm
  | cons u rest ih =>
      intro css r h
      cases hu : Updater.update gens t css u with
      | some css₁ =>
          rw [foldUpdaters_cons_some gens t u rest css css₁ hu] at h
          have hres : css₁ = (gens u.updater t css u.start).1 := by
            rw [updater_update_eq] at hu
            split at hu
            · exact (Option.some.inj hu).symm
            · exact absurd hu (by simp)
          have hsplit : (gens u.updater t css u.start).1 =
              css ++ (gens u.updater t "" u.start).1 := by
            rw [hA u.updater t css u.start]
          rw [ih css₁ r h, hres, hsplit, String.append_assoc]
          rfl
      | none =>
          rw [foldUpdaters_cons_none gens t u rest css hu] at h
          exact absurd h (by simp)

theorem foldUpdaters_none_iff {T : Type} (gens : GenEnv T) (t : T)
    (hA : AppendsOnly gens) :
    ∀ (l : List Updater) (css : String),
      foldUpdaters gens t l css = none ↔
        ∃ u ∈ l, (gens u.updater t "" u.start).2 ≠ u.stop := by
  intro l
  induction l with
  | nil => intro css; simp [foldUpdaters]
  | cons u rest ih =>
      intro css
      have hcnt : (gens u.updater t css u.start).2 =
          (gens u.updater t "" u.start).2 := by
        rw [hA u.updater t css u.start]
      by_cases hstop : (gens u.updater t "" u.start).2 = u.stop
      · have hupd : Updater.update gens t css u =
            some (gens u.updater t css u.start).1 := by
          rw [updater_update_eq, if_pos (hcnt.trans hstop)]
        rw [foldUpdaters_cons_some gens t u rest css _ hupd, ih]
        simp only [List.mem_cons]
        constructor
        · rintro ⟨v, hv, hp⟩
          exact ⟨v, Or.inr hv, hp⟩
        · rintro ⟨v, hv | hv, hp⟩
          · subst hv
            exact absurd hstop hp
          · exact ⟨v, hv, hp⟩
      · have hupd : Updater.update gens t css u = none := by
          rw [updater_update_eq, if_neg (fun hx => hstop (hcnt.symm.trans hx))]
        rw [foldUpdaters_cons_none gens t u rest css hupd]
        constructor
        · intro _
          exact ⟨u, List.mem_cons_self u rest, hstop⟩
        · intro _
          rfl

/-! ### Invariants of reachable provider states -/

theorem reachable_sync {T : Type} (ops : ThemeOps T) (gens : GenEnv T)
    (s : Inner T) (h : Reachable ops gens s) : s.styles = s.current_style := by
  induction h with
  | init root t s hd h =>
      obtain ⟨children, _, hs, _⟩ := new_and_mount_eq_cases root t s hd h
      rw [hs]
  | reg s s₁ g r hs h ih =>
      rcases add_updater_eq_cases gens s s₁ g r h with ⟨hE, _⟩ | ⟨_, _, hE⟩
      · rw [hE]; exact ih
      · rw [hE]
  | theme s s₁ t hs h ih =>
      rcases update_theme_eq_cases ops gens s s₁ t h with ⟨_, hE⟩ | ⟨_, css, _, hE⟩
      · rw [hE]; exact ih
      · rw [hE]

theorem reachable_chain {T : Type} (ops : ThemeOps T) (gens : GenEnv T)
    (s : Inner T) (h : Reachable ops gens s) :
    chainOk 0 s.updaters ∧ s.counter = endCounter 0 s.updaters := by
  induction h with
  | init root t s hd h =>
      obtain ⟨children, _, hs, _⟩ := new_and_mount_eq_cases root t s hd h
      rw [hs]
      exact ⟨trivial, rfl⟩
  | reg s s₁ g r hs h ih =>
      rcases add_updater_eq_cases gens s s₁ g r h with ⟨hE, _⟩ | ⟨_, _, hE⟩
      · rw [hE]; exact ih
      · rw [hE]
        constructor
        · show chainOk 0 (s.updaters ++
            [⟨g, s.counter, (gens g s.current_theme s.current_style s.counter).2⟩])
          rw [ih.2]
          exact chainOk_snoc s.updaters g _ 0 ih.1
        · show (gens g s.current_theme s.current_style s.counter).2 =
            endCounter 0 (s.updaters ++
              [⟨g, s.counter, (gens g s.current_theme s.current_style s.counter).2⟩])
          rw [endCounter_snoc]
  | theme s s₁ t hs h ih =>
      rcases update_theme_eq_cases ops gens s s₁ t h with ⟨_, hE⟩ | ⟨_, css, _, hE⟩
      · rw [hE]; exact ih
      · rw [hE]; exact ih

theorem reachable_range_le {T : Type} (ops : ThemeOps T) (gens : GenEnv T)
    (hM : MonotoneCounter gens) (s : Inner T) (h : Reachable ops gens s) :
    ∀ u ∈ s.updaters, u.start ≤ u.stop := by
  induction h with
  | init root t s hd h =>
      obtain ⟨children, _, hs, _⟩ := new_and_mount_eq_cases root t s hd h
      rw [hs]
      intro u hu
      exact absurd hu (by simp)
  | reg s s₁ g r hs h ih =>
      rcases add_updater_eq_cases gens s s₁ g r h with ⟨hE, _⟩ | ⟨_, _, hE⟩
      · rw [hE]; exact ih
      · rw [hE]
        intro u hu
        rcases List.mem_append.mp hu with hu | hu
        · exact ih u hu
        · rcases List.mem_singleton.mp hu with rfl
          exact hM g s.current_theme s.current_style s.counter
  | theme s s₁ t hs h ih =>
      rcases update_theme_eq_cases ops gens s s₁ t h with ⟨_, hE⟩ | ⟨_, css, _, hE⟩
      · rw [hE]; exact ih
      · rw [hE]; exact ih

theorem reachable_contrib {T : Type} (ops : ThemeOps T) (gens : GenEnv T)
    (hA : AppendsOnly gens) (s : Inner T) (h : Reachable ops gens s) :
    s.styles = contributions gens s.current_theme s.updaters := by
  induction h with
  | init root t s hd h =>
      obtain ⟨children, _, hs, _⟩ := new_and_mount_eq_cases root t s hd h
      rw [hs]
      rfl
  | reg s s₁ g r hs h ih =>
      rcases add_updater_eq_cases gens s s₁ g r h with ⟨hE, _⟩ | ⟨_, _, hE⟩
      · rw [hE]; exact ih
      · rw [hE]
        show (gens g s.current_theme s.current_style s.counter).1 =
          contributions gens s.current_theme (s.updaters ++
            [⟨g, s.counter, (gens g s.current_theme s.current_style s.counter).2⟩])
        rw [contributions_snoc, hA g s.current_theme s.current_style s.counter]
        have hstyle : s.current_style = contributions gens s.current_theme s.updaters :=
          (reachable_sync ops gens s hs).symm.trans ih
        rw [hstyle]
  | theme s s₁ t hs h ih =>
      rcases update_theme_eq_cases ops gens s s₁ t h with ⟨_, hE⟩ | ⟨_, css, hf, hE⟩
      · rw [hE]; exact ih
      · rw [hE]
        show css = contributions gens t s.updaters
        rw [foldUpdaters_some_eq gens t hA s.updaters "" css hf, String.empty_append]

theorem inner_update_none_iff {T : Type} (gens : GenEnv T) (s : Inner T) :
    Inner.update gens s = none ↔
      foldUpdaters gens s.current_theme s.updaters "" = none := by
  unfold Inner.update
  cases hf : foldUpdaters gens s.current_theme s.updaters "" <;> simp [hf]

theorem add_updater_second {T : Type} (gens : GenEnv T) (s s₁ : Inner T)
    (g r₁ : Nat) (h0 : s.updater_to_idx.lookup g = none)
    (h : Inner.add_updater gens s g = some (s₁, r₁)) :
    Inner.add_updater gens s₁ g = some (s₁, r₁) := by
  rcases add_updater_eq_cases gens s s₁ g r₁ h with ⟨_, idx, u, hl, _, _⟩ | ⟨_, hr, hE⟩
  · rw [h0] at hl
    exact absurd hl (by simp)
  · subst hE
    subst hr
    simp [Inner.add_updater, List.lookup_cons_self, List.getElem?_concat_length]

/-! ### Concrete instances used by the witnesses -/

/-- A concrete theme type: `fast_cmp` is equality, so a different value
reports "changed". -/
def ops₀ : ThemeOps Bool :=
  ⟨fun a b => a == b⟩

/-- A concrete generator environment: every generator keeps the buffer and
bumps the counter once. -/
def gens₀ : GenEnv Bool :=
  fun _ _ css c => (css, c + 1)

/-- A second concrete generator environment, differing from `gens₀`. -/
def gens₁w : GenEnv Bool :=
  fun _ _ css c => (css ++ "y", c + 7)

theorem gens₀_appendsOnly : AppendsOnly gens₀ := by
  intro g t css c
  show (css, c + 1) = (css ++ "", c + 1)
  rw [String.append_empty]

theorem gens₀_monotone : MonotoneCounter gens₀ :=
  fun _ _ _ c => Nat.le_succ c

/-- The freshly mounted provider state. -/
def s₀ : Inner Bool :=
  { styles := "", current_theme := false, current_style := "",
    updaters := [], updater_to_idx := [], counter := 0 }

/-- `s₀` after registering generator identity `0` under `gens₀`. -/
def s₁w : Inner Bool :=
  { styles := "", current_theme := false, current_style := "",
    updaters := [⟨0, 0, 1⟩], updater_to_idx := [(0, 0)], counter := 1 }

/-- `s₁w` after registering generator identity `1` under `gens₀`. -/
def s₂w : Inner Bool :=
  { styles := "", current_theme := false, current_style := "",
    updaters := [⟨0, 0, 1⟩, ⟨1, 1, 2⟩], updater_to_idx := [(1, 1), (0, 0)],
    counter := 2 }

/-- `s₀` after `update_theme` with the changed theme `true`. -/
def s₃w : Inner Bool :=
  { styles := "", current_theme := true, current_style := "",
    updaters := [], updater_to_idx := [], counter := 0 }

theorem s₀_reachable : Reachable ops₀ gens₀ s₀ :=
  .init (Root.document (some [])) false s₀ [⟨"style", ""⟩] rfl

theorem s₁w_reachable : Reachable ops₀ gens₀ s₁w :=
  .reg s₀ s₁w 0 0 s₀_reachable rfl

theorem s₂w_reachable : Reachable ops₀ gens₀ s₂w :=
  .reg s₁w s₂w 1 1 s₁w_reachable rfl

/-! ### The claims -/

/-- Claim C1: registration is idempotent.  If `g` is already registered
(the identity map holds it), `add_updater` returns a result independent of
the generator environment (the generator is not invoked) and leaves the
whole state — counter, updater list, mapping, buffer and mount target —
unchanged; and after a first registration of a fresh `g`, a second call
returns the same recorded `start` and the unchanged state. -/
theorem claim_C1 {T : Type} :
    (∀ (gens gens₁ : GenEnv T) (s : Inner T) (g idx : Nat),
        s.updater_to_idx.lookup g = some idx →
        Inner.add_updater gens s g = Inner.add_updater gens₁ s g ∧
        ∀ s₁ r, Inner.add_updater gens s g = some (s₁, r) → s₁ = s) ∧
    (∀ (gens : GenEnv T) (s s₁ : Inner T) (g r₁ : Nat),
        s.updater_to_idx.lookup g = none →
        Inner.add_updater gens s g = some (s₁, r₁) →
        Inner.add_updater gens s₁ g = some (s₁, r₁)) := by
  constructor
  · intro gens gens₁ s g idx hl
    constructor
    · unfold Inner.add_updater
      rw [hl]
    · intro s₁ r h
      rcases add_updater_eq_cases gens s s₁ g r h with ⟨hE, _⟩ | ⟨hl2, _, _⟩
      · exact hE
      · rw [hl] at hl2
        exact absurd hl2 (by simp)
  · intro gens s s₁ g r₁ h0 h
    exact add_updater_second gens s s₁ g r₁ h0 h

theorem claim_C1_witness :
    Inner.add_updater gens₀ s₁w 0 = Inner.add_updater gens₁w s₁w 0 ∧
    Inner.add_updater gens₀ s₁w 0 = some (s₁w, 0) :=
  ⟨((claim_C1 (T := Bool)).1 gens₀ gens₁w s₁w 0 0 rfl).1,
   (claim_C1 (T := Bool)).2 gens₀ s₀ s₁w 0 0 rfl rfl⟩

/-- Claim C2: rebuild equivalence.  At every reachable state the mount
target's text equals the concatenation, in registration order, of each
registered generator's output against the current theme seeded at its
recorded `start`; and an `update_theme` whose theme compares as changed
stores the new theme as current and rebuilds every generator against it. -/
theorem claim_C2 {T : Type} (ops : ThemeOps T) (gens : GenEnv T)
    (hA : AppendsOnly gens) :
    (∀ s : Inner T, Reachable ops gens s →
        s.styles = contributions gens s.current_theme s.updaters) ∧
    (∀ (s s₁ : Inner T) (t : T), ops.fast_cmp s.current_theme t = false →
        Inner.update_theme ops gens s t = some s₁ →
        s₁.current_theme = t ∧
        s₁.styles = contributions gens t s.updaters) := by
  constructor
  · exact fun s h => reachable_contrib ops gens hA s h
  · intro s s₁ t hc h
    rcases update_theme_eq_cases ops gens s s₁ t h with ⟨hc2, _⟩ | ⟨_, css, hf, hE⟩
    · rw [hc] at hc2
      exact absurd hc2 (by simp)
    · rw [hE]
      refine ⟨rfl, ?_⟩
      show css = contributions gens t s.updaters
      rw [foldUpdaters_some_eq gens t hA s.updaters "" css hf, String.empty_append]

theorem claim_C2_witness :
    s₃w.current_theme = true ∧ s₃w.styles = contributions gens₀ true s₀.updaters :=
  (claim_C2 ops₀ gens₀ gens₀_appendsOnly).2 s₀ s₃w true rfl rfl

/-- Claim C3: first registration of a fresh generator identity snapshots
the counter as `start`, invokes the generator once with the current theme,
the shared accumulated buffer and the counter at `start`, snapshots the
resulting counter as `stop`, appends and indexes the record
`{g, start, stop}`, writes the full accumulated buffer to the mount
target, and returns `start`. -/
theorem claim_C3 {T : Type} (gens : GenEnv T) (s : Inner T) (g : Nat)
    (h : s.updater_to_idx.lookup g = none) :
    Inner.add_updater gens s g =
      some ({ s with
              updater_to_idx := (g, s.updaters.length) :: s.updater_to_idx,
              current_style := (gens g s.current_theme s.current_style s.counter).1,
              counter := (gens g s.current_theme s.current_style s.counter).2,
              updaters := s.updaters ++
                [⟨g, s.counter, (gens g s.current_theme s.current_style s.counter).2⟩],
              styles := (gens g s.current_theme s.current_style s.counter).1 },
            s.counter) := by
  unfold Inner.add_updater
  rw [h]

theorem claim_C3_witness :
    Inner.add_updater gens₀ s₀ 0 = some (s₁w, 0) :=
  claim_C3 gens₀ s₀ 0 rfl

/-- Claim C5: short-circuit on an unchanged theme.  When `fast_cmp`
reports the theme unchanged, `update_theme` returns the state unchanged
byte for byte — no rebuild, no mount-target write — and the result does
not depend on the generator environment (no generator is invoked). -/
theorem claim_C5 {T : Type} (ops : ThemeOps T) (s : Inner T) (t : T)
    (h : ops.fast_cmp s.current_theme t = true) :
    ∀ gens : GenEnv T, Inner.update_theme ops gens s t = some s := by
  intro gens
  unfold Inner.update_theme
  simp [h]

theorem claim_C5_witness :
    Inner.update_theme ops₀ gens₀ s₁w false = some s₁w :=
  claim_C5 ops₀ s₁w false rfl gens₀

/-- Claim C4: at every reachable state with counter-advancing generators,
the recorded half-open ranges `[start, stop)` are pairwise disjoint, and
the generators' text contributions appear in the mount target's text in
registration order (the text is their concatenation in list order). -/
theorem claim_C4 {T : Type} (ops : ThemeOps T) (gens : GenEnv T)
    (hM : MonotoneCounter gens) (hA : AppendsOnly gens) (s : Inner T)
    (h : Reachable ops gens s) :
    (∀ i j (hi : i < s.updaters.length) (hj : j < s.updaters.length),
        i ≠ j → ∀ n : Nat,
        ¬((s.updaters.get ⟨i, hi⟩).start ≤ n ∧ n < (s.updaters.get ⟨i, hi⟩).stop ∧
          (s.updaters.get ⟨j, hj⟩).start ≤ n ∧ n < (s.updaters.get ⟨j, hj⟩).stop)) ∧
    s.styles = contributions gens s.current_theme s.updaters := by
  have hch := reachable_chain ops gens s h
  have hle := reachable_range_le ops gens hM s h
  constructor
  · intro i j hi hj hij n hn
    obtain ⟨h1, h2, h3, h4⟩ := hn
    rcases Nat.lt_or_ge i j with hlt | hge
    · have hd := chainOk_ordered s.updaters 0 hch.1 hle i j hi hj hlt
      omega
    · have hgt : j < i := Nat.lt_of_le_of_ne hge (Ne.symm hij)
      have hd := chainOk_ordered s.updaters 0 hch.1 hle j i hj hi hgt
      omega
  · exact reachable_contrib ops gens hA s h

theorem claim_C4_witness :
    (¬((s₂w.updaters.get ⟨0, by decide⟩).start ≤ 1 ∧
       1 < (s₂w.updaters.get ⟨0, by decide⟩).stop ∧
       (s₂w.updaters.get ⟨1, by decide⟩).start ≤ 1 ∧
       1 < (s₂w.updaters.get ⟨1, by decide⟩).stop)) ∧
    s₂w.styles = contributions gens₀ s₂w.current_theme s₂w.updaters :=
  ⟨(claim_C4 ops₀ gens₀ gens₀_monotone gens₀_appendsOnly s₂w s₂w_reachable).1
      0 1 (by decide) (by decide) (by decide) 1,
   (claim_C4 ops₀ gens₀ gens₀_monotone gens₀_appendsOnly s₂w s₂w_reachable).2⟩

/-- Claim C6: the determinism assertion.  A replay whose counter does not
reach exactly the recorded `stop` makes `Updater::update` panic (`none`),
and never panics otherwise; during a full rebuild a single mismatching
record makes the whole rebuild panic, while a rebuild in which every
record replays exactly to its `stop` never triggers the assertion. -/
theorem claim_C6 {T : Type} (gens : GenEnv T) (hA : AppendsOnly gens) :
    (∀ (t : T) (css : String) (u : Updater),
        Updater.update gens t css u = none ↔
          (gens u.updater t css u.start).2 ≠ u.stop) ∧
    (∀ (s : Inner T) (u : Updater), u ∈ s.updaters →
        (gens u.updater s.current_theme "" u.start).2 ≠ u.stop →
        Inner.update gens s = none) ∧
    (∀ s : Inner T,
        (∀ u ∈ s.updaters, (gens u.updater s.current_theme "" u.start).2 = u.stop) →
        Inner.update gens s ≠ none) := by
  refine ⟨?_, ?_, ?_⟩
  · intro t css u
    rw [updater_update_eq]
    constructor
    · intro h heq
      rw [if_pos heq] at h
      exact absurd h (by simp)
    · intro hne
      rw [if_neg hne]
  · intro s u hu hne
    rw [inner_update_none_iff,
        foldUpdaters_none_iff gens s.current_theme hA s.updaters ""]
    exact ⟨u, hu, hne⟩
  · intro s hall h
    rw [inner_update_none_iff,
        foldUpdaters_none_iff gens s.current_theme hA s.updaters ""] at h
    obtain ⟨u, hu, hne⟩ := h
    exact hne (hall u hu)

/-- A provider state whose single record claims `stop = 5` although its
generator only advances the counter by one: the rebuild must panic. -/
def sBad : Inner Bool :=
  { styles := "", current_theme := false, current_style := "",
    updaters := [⟨0, 0, 5⟩], updater_to_idx := [(0, 0)], counter := 5 }

theorem claim_C6_witness :
    (Updater.update gens₀ false "" ⟨0, 0, 5⟩ = none ↔
      (gens₀ 0 false "" 0).2 ≠ 5) ∧
    Inner.update gens₀ sBad = none ∧
    Inner.update gens₀ s₁w ≠ none :=
  ⟨(claim_C6 gens₀ gens₀_appendsOnly).1 false "" ⟨0, 0, 5⟩,
   (claim_C6 gens₀ gens₀_appendsOnly).2.1 sBad ⟨0, 0, 5⟩ (by decide) (by decide),
   (claim_C6 gens₀ gens₀_appendsOnly).2.2 s₁w (by decide)⟩

/-- Claim C7: `add_classes` registers the bundle's generator through
`add_updater` and returns exactly `C::new start` for the returned `start`
(a pure projection of the registration result); a repeated call on the
same provider is deduplicated, leaving the state untouched and producing a
bundle built from the same `start`. -/
theorem claim_C7 {T C : Type} (gens : GenEnv T) (co : ClassesOps T C) :
    (∀ s : Inner T, StyleProvider.add_classes gens co s =
        (Inner.add_updater gens s co.genKey).map (fun p => (p.1, co.new p.2))) ∧
    (∀ (s s₁ : Inner T) (r₁ : Nat),
        s.updater_to_idx.lookup co.genKey = none →
        Inner.add_updater gens s co.genKey = some (s₁, r₁) →
        StyleProvider.add_classes gens co s₁ = some (s₁, co.new r₁)) := by
  constructor
  · intro s
    cases h : Inner.add_updater gens s co.genKey with
    | some p =>
        obtain ⟨s₁, r⟩ := p
        simp [StyleProvider.add_classes, h]
    | none => simp [StyleProvider.add_classes, h]
  · intro s s₁ r₁ h0 h
    have h2 := add_updater_second gens s s₁ co.genKey r₁ h0 h
    simp [StyleProvider.add_classes, h2]

/-- A concrete `Classes` implementation whose bundle is just the `start`
value itself. -/
def co₀ : ClassesOps Bool Nat :=
  ⟨0, fun n => n⟩

theorem claim_C7_witness :
    StyleProvider.add_classes gens₀ co₀ s₀ = some (s₁w, 0) ∧
    StyleProvider.add_classes gens₀ co₀ s₁w = some (s₁w, 0) :=
  ⟨((claim_C7 gens₀ co₀).1 s₀).trans rfl,
   (claim_C7 gens₀ co₀).2 s₀ s₁w 0 rfl rfl⟩

/-- Claim C8: mounting panics (`none`, no provider produced) on a shadow
root and on a document without a head, and succeeds on a document with a
head, appending exactly one empty `<style>` element to it. -/
theorem claim_C8 {T : Type} :
    (∀ t : T, Inner.new_and_mount_in_root Root.shadow t = none) ∧
    (∀ t : T, Inner.new_and_mount_in_root (Root.document none) t = none) ∧
    (∀ (t : T) (children : List Elem),
        Inner.new_and_mount_in_root (Root.document (some children)) t =
          some ({ styles := "", current_theme := t, current_style := "",
                  updaters := [], updater_to_idx := [], counter := 0 },
                children ++ [⟨"style", ""⟩])) :=
  ⟨fun _ => rfl, fun _ => rfl, fun _ _ => rfl⟩

/-- Claim C9: mount-sync invariant.  After construction and after every
successful public operation — registration (also via `add_classes`, which
delegates to `add_updater`) and theme update, deduplicated and
short-circuited calls included — the mount target's text equals the
internal `current_style` buffer. -/
theorem claim_C9 {T : Type} (ops : ThemeOps T) (gens : GenEnv T)
    (s : Inner T) (h : Reachable ops gens s) :
    s.styles = s.current_style :=
  reachable_sync ops gens s h

theorem claim_C9_witness : s₂w.styles = s₂w.current_style :=
  claim_C9 ops₀ gens₀ s₂w s₂w_reachable

/-- Claim C10: the counter starts at 0, so the first record has
`start = 0` (bundle identifier `"css-0"`); at every reachable state
consecutive records are contiguous (`records[i].stop = records[i+1].start`)
and the counter equals the last record's `stop` (0 with no records); and
`update_theme` never modifies the counter, the updater list, or the
identity mapping. -/
theorem claim_C10 {T : Type} (ops : ThemeOps T) (gens : GenEnv T) :
    (∀ (root : Root) (t : T) (s : Inner T) (hd : List Elem),
        Inner.new_and_mount_in_root root t = some (s, hd) → s.counter = 0) ∧
    (∀ s : Inner T, Reachable ops gens s →
        (∀ u, s.updaters.head? = some u →
            u.start = 0 ∧ cssName u.start = "css-0") ∧
        (∀ i (hii : i + 1 < s.updaters.length),
            (s.updaters.get ⟨i, Nat.lt_of_succ_lt hii⟩).stop =
              (s.updaters.get ⟨i + 1, hii⟩).start) ∧
        s.counter = (s.updaters.getLast?.map Updater.stop).getD 0) ∧
    (∀ (s : Inner T) (t : T) (s₁ : Inner T),
        Inner.update_theme ops gens s t = some s₁ →
        s₁.counter = s.counter ∧ s₁.updaters = s.updaters ∧
        s₁.updater_to_idx = s.updater_to_idx) := by
  refine ⟨?_, ?_, ?_⟩
  · intro root t s hd h
    obtain ⟨children, _, hs, _⟩ := new_and_mount_eq_cases root t s hd h
    rw [hs]
  · intro s h
    have hch := reachable_chain ops gens s h
    refine ⟨?_, ?_, ?_⟩
    · intro u hu
      cases hl : s.updaters with
      | nil => rw [hl] at hu; exact absurd hu (by simp)
      | cons v rest =>
          rw [hl] at hu
          have hv : v = u := by simpa using hu
          have hc := hch.1
          rw [hl] at hc
          have hstart : u.start = 0 := hv ▸ hc.1
          exact ⟨hstart, by rw [hstart]; rfl⟩
    · intro i hii
      exact chainOk_consecutive s.updaters 0 hch.1 i hii
    · rw [hch.2, endCounter_getLast]
  · intro s t s₁ h
    rcases update_theme_eq_cases ops gens s s₁ t h with ⟨_, hE⟩ | ⟨_, css, _, hE⟩
    · rw [hE]
      exact ⟨rfl, rfl, rfl⟩
    · rw [hE]
      exact ⟨rfl, rfl, rfl⟩

theorem claim_C10_witness :
    s₀.counter = 0 ∧
    ((⟨0, 0, 1⟩ : Updater).start = 0 ∧
      cssName (⟨0, 0, 1⟩ : Updater).start = "css-0") ∧
    s₂w.counter = (s₂w.updaters.getLast?.map Updater.stop).getD 0 ∧
    (s₃w.counter = s₀.counter ∧ s₃w.updaters = s₀.updaters ∧
      s₃w.updater_to_idx = s₀.updater_to_idx) :=
  ⟨(claim_C10 ops₀ gens₀).1 (Root.document (some [])) false s₀ [⟨"style", ""⟩] rfl,
   ((claim_C10 ops₀ gens₀).2.1 s₁w s₁w_reachable).1 ⟨0, 0, 1⟩ rfl,
   ((claim_C10 ops₀ gens₀).2.1 s₂w s₂w_reachable).2.2,
   (claim_C10 ops₀ gens₀).2.2 s₀ true s₃w rfl⟩

end CssInRs
